import Mathlib

/-!
# Verification of the reminder-scheduling core of `wazzup-love-bot`

This file gives a shallow embedding, in Lean, of the occurrence calculator and
due-reminder scheduler of the repository (`src/utils/reminderUtils.ts`,
`src/utils/phoneUtils.ts`, `src/services/NotificationService.ts`,
`src/components/CalendarView.tsx`), together with proofs and refutations of the
specified properties.

Timestamps are modelled as in ECMAScript: an integer count of milliseconds
since the Unix epoch (`Int`; the script environment is modelled with the local
time zone equal to UTC and without daylight-saving jumps, so `Date` accessors
are pure arithmetic on the timestamp).  Calendar (year/month/day) structure is
the proleptic Gregorian calendar mandated by ECMA-262; the `daysFromCivil` /
`civilFromDays` pair below computes the bijection between day numbers and
civil dates with Howard Hinnant's well-known branchless algorithms, and the
theorems `daysFromCivil_civilFromDays` and `civilFromDays_daysFromCivil` prove
that the pair really is that bijection, so the embedding of `Date.setDate`,
`Date.setMonth`, `Date.getDate`, `Date.getMonth`, `Date.getFullYear` in terms
of it is faithful to `MakeDay`/`DateFromTime` of ECMA-262.

On `Int`, Lean's `/` is Euclidean division and `%` the nonnegative remainder;
for positive literal divisors these coincide with ECMAScript's
`Math.floor(x / d)` and the always-nonnegative `modulo` operation used by the
`Date` specification, which is how they are used throughout.
-/

/-- The March-based year of a civil date: January and February count as months
10 and 11 of the previous year. -/
def yShiftOf (y m : Int) : Int := if m ≤ 2 then y - 1 else y

/-- March-based month index (March = 0, …, February = 11) of a 1-based civil
month. -/
def mpOf (m : Int) : Int := if m ≤ 2 then m + 9 else m - 3

/-- Day number (days since 1970-01-01) of the civil date `(y, m, d)`,
`m` being the 1-based month (Hinnant's `days_from_civil`).  `d` may lie outside
`[1, 28..31]`; the formula is linear in `d`, which matches the overflow
behaviour of ECMAScript `MakeDay` (e.g. day 32 of January denotes
February 1). -/
def daysFromCivil (y m d : Int) : Int :=
  let era : Int := yShiftOf y m / 400
  let yoe : Int := yShiftOf y m - era * 400
  let doy : Int := (153 * mpOf m + 2) / 5 + d - 1
  let doe : Int := yoe * 365 + yoe / 4 - yoe / 100 + doy
  era * 146097 + doe - 719468

/-- Era (400-year Gregorian cycle) of a day number; stage of `civilFromDays`. -/
def eraOf (z : Int) : Int := (z + 719468) / 146097

/-- Day of era, in `[0, 146096]`; stage of `civilFromDays`. -/
def doeOf (z : Int) : Int := z + 719468 - eraOf z * 146097

/-- Year of era, in `[0, 399]`, from a day of era; stage of `civilFromDays`. -/
def yoeI (doe : Int) : Int := (doe - doe / 1460 + doe / 36524 - doe / 146096) / 365

/-- Day of year (March-based, in `[0, 365]`) from a day of era; stage of
`civilFromDays`. -/
def doyI (doe : Int) : Int := doe - (365 * yoeI doe + yoeI doe / 4 - yoeI doe / 100)

/-- March-based month index in `[0, 11]` of a day of year; stage of
`civilFromDays`. -/
def mpI (doy : Int) : Int := (5 * doy + 2) / 153

/-- Civil date `(year, month, day)` (month 1-based) of a day number
(Hinnant's `civil_from_days`, staged through the named helpers above). -/
def civilFromDays (z : Int) : Int × Int × Int :=
  let doe : Int := doeOf z
  let yoe : Int := yoeI doe
  let doy : Int := doyI doe
  let mp : Int := mpI doy
  let d : Int := doy - (153 * mp + 2) / 5 + 1
  let m : Int := if mp < 10 then mp + 3 else mp - 9
  let y : Int := yoe + eraOf z * 400 + (if m ≤ 2 then 1 else 0)
  (y, m, d)

/-- Gregorian leap-year test (ECMA-262 `DaysInYear`). -/
def isLeap (y : Int) : Bool :=
  (y % 4 == 0 && y % 100 != 0) || y % 400 == 0

/-- Number of days of month `m` (1-based) of year `y`. -/
def daysInMonth (y m : Int) : Int :=
  if m = 2 then (if isLeap y then 29 else 28)
  else if m = 4 ∨ m = 6 ∨ m = 9 ∨ m = 11 then 30
  else 31

/-! Auxiliary `Nat`-valued functions used to verify the year-of-era extraction
inside `civilFromDays`. -/

/-- The corrected day count whose quotient by 365 is the year of era. -/
def yoeNum (doe : Nat) : Nat := doe - doe / 1460 + doe / 36524 - doe / 146096

/-- Year of era as computed by `civilFromDays`, on `Nat`. -/
def yoeOf (doe : Nat) : Nat := yoeNum doe / 365

/-- First day of era-year `y` within a 400-year era. -/
def yearStart (y : Nat) : Nat := 365 * y + y / 4 - y / 100

/-- Last day of era-year `y` within a 400-year era. -/
def yearEnd (y : Nat) : Nat := if 399 ≤ y then 146096 else yearStart (y + 1) - 1

theorem yoeNum_step (d : Nat) : yoeNum d ≤ yoeNum (d + 1) := by
  unfold yoeNum; omega

theorem yoeNum_mono {a b : Nat} (h : a ≤ b) : yoeNum a ≤ yoeNum b := by
  induction b with
  | zero => simp_all
  | succ n ih =>
    rcases Nat.lt_or_ge a (n + 1) with h' | h'
    · exact le_trans (ih (by omega)) (yoeNum_step n)
    · have : a = n + 1 := by omega
      simp [this]

theorem yoeOf_mono {a b : Nat} (h : a ≤ b) : yoeOf a ≤ yoeOf b :=
  Nat.div_le_div_right (yoeNum_mono h)

set_option maxRecDepth 10000 in
theorem yoeOf_endpoints :
    ∀ y : Nat, y < 400 → (yoeOf (yearStart y) = y ∧ yoeOf (yearEnd y) = y) := by decide

/-- The fundamental bracket: every day of era `doe` lies inside the era-year
computed by `yoeOf`. -/
theorem yoeOf_bracket {doe : Nat} (h : doe ≤ 146096) :
    yearStart (yoeOf doe) ≤ doe ∧ doe ≤ yearEnd (yoeOf doe) ∧ yoeOf doe ≤ 399 := by
  have hend399 : yearEnd 399 = 146096 := by simp [yearEnd]
  have htop : yoeOf doe ≤ 399 := by
    have h1 := yoeOf_mono h
    have h2 := (yoeOf_endpoints 399 (by omega)).2
    rw [hend399] at h2
    omega
  obtain ⟨y, hy⟩ : ∃ y, yoeOf doe = y := ⟨_, rfl⟩
  rw [hy] at htop ⊢
  refine ⟨?_, ?_, htop⟩
  · by_contra hlt
    push_neg at hlt
    rcases Nat.eq_zero_or_pos y with h0 | h0
    · subst h0
      have : yearStart 0 = 0 := by simp [yearStart]
      omega
    · obtain ⟨y', hy'⟩ : ∃ y', y = y' + 1 := ⟨y - 1, by omega⟩
      subst hy'
      have hEe : yearEnd y' = yearStart (y' + 1) - 1 := by
        unfold yearEnd
        rw [if_neg (by omega)]
      have hpos : 1 ≤ yearStart (y' + 1) := by
        unfold yearStart; omega
      have hle : doe ≤ yearEnd y' := by omega
      have h1 := yoeOf_mono hle
      have h2 := (yoeOf_endpoints y' (by omega)).2
      omega
  · by_contra hlt
    push_neg at hlt
    rcases Nat.lt_or_ge y 399 with h399 | h399
    · have hEe : yearEnd y = yearStart (y + 1) - 1 := by
        unfold yearEnd
        rw [if_neg (by omega)]
      have hpos : 1 ≤ yearStart (y + 1) := by
        unfold yearStart; omega
      have hge : yearStart (y + 1) ≤ doe := by omega
      have h1 := yoeOf_mono hge
      have h2 := (yoeOf_endpoints (y + 1) (by omega)).1
      omega
    · have : y = 399 := by omega
      subst this
      rw [hend399] at hlt
      omega

/-- Any era-year fits the maximal year length. -/
theorem yearEnd_le {y : Nat} (h : y ≤ 399) : yearEnd y ≤ yearStart y + 365 := by
  unfold yearEnd yearStart
  split <;> omega

/-- A day bracketed inside era-year `y` has year of era `y`. -/
theorem yoeOf_eq_of_bracket {y doe : Nat} (hy : y ≤ 399)
    (h1 : yearStart y ≤ doe) (h2 : doe ≤ yearEnd y) : yoeOf doe = y := by
  have e := yoeOf_endpoints y (by omega)
  have m1 := yoeOf_mono h1
  have m2 := yoeOf_mono h2
  omega

/-- `yoeI` agrees with the `Nat`-level `yoeOf`. -/
theorem yoeI_eq_cast (doe : Int) (h0 : 0 ≤ doe) : yoeI doe = (yoeOf doe.toNat : Int) := by
  have e4 : doe - doe / 1460 + doe / 36524 - doe / 146096 = (yoeNum doe.toNat : Int) := by
    unfold yoeNum; omega
  unfold yoeI
  rw [e4]; unfold yoeOf; omega

/-- Cast form of `yearStart`. -/
theorem yearStart_cast (y : Int) (h0 : 0 ≤ y) :
    365 * y + y / 4 - y / 100 = (yearStart y.toNat : Int) := by
  unfold yearStart; omega

/-- Bounds for the year-of-era and day-of-year stages of `civilFromDays`. -/
theorem yoeI_doyI_bounds (doe : Int) (h0 : 0 ≤ doe) (h1 : doe ≤ 146096) :
    0 ≤ yoeI doe ∧ yoeI doe ≤ 399 ∧ 0 ≤ doyI doe ∧ doyI doe ≤ 365 := by
  have hN := @yoeOf_bracket doe.toNat (by omega)
  have hE := @yearEnd_le (yoeOf doe.toNat) hN.2.2
  have hLo : yearStart (yoeOf doe.toNat) ≤ doe.toNat := hN.1
  have hHi : doe.toNat ≤ yearStart (yoeOf doe.toNat) + 365 := le_trans hN.2.1 hE
  have hTop : yoeOf doe.toNat ≤ 399 := hN.2.2
  clear hN hE
  unfold yearStart at hLo hHi
  unfold doyI
  rw [yoeI_eq_cast doe h0]
  omega

/-- Bounds and day extraction for the month stage of `civilFromDays`. -/
theorem mpI_bounds (doy : Int) (h0 : 0 ≤ doy) (h1 : doy ≤ 365) :
    0 ≤ mpI doy ∧ mpI doy ≤ 11 ∧ (153 * mpI doy + 2) / 5 ≤ doy ∧
    doy - (153 * mpI doy + 2) / 5 ≤ 30 := by
  unfold mpI; omega

/-- Decomposition of a day number into era and day of era. -/
theorem doeOf_bounds (z : Int) :
    0 ≤ doeOf z ∧ doeOf z ≤ 146096 ∧ eraOf z * 146097 + doeOf z - 719468 = z := by
  unfold doeOf eraOf; omega

/-- `mpOf` undoes the month reconstruction of `civilFromDays`. -/
theorem mpOf_reconstruct (mp : Int) (h0 : 0 ≤ mp) (h1 : mp ≤ 11) :
    mpOf (if mp < 10 then mp + 3 else mp - 9) = mp := by
  unfold mpOf
  split_ifs <;> omega

/-- Evaluation of `daysFromCivil` through a given era/year-of-era
decomposition of the shifted year. -/
theorem daysFromCivil_eq (y m d era yoe : Int) (hY : yShiftOf y m = era * 400 + yoe)
    (h0 : 0 ≤ yoe) (h1 : yoe ≤ 399) :
    daysFromCivil y m d =
      era * 146097 + (yoe * 365 + yoe / 4 - yoe / 100
        + ((153 * mpOf m + 2) / 5 + d - 1)) - 719468 := by
  simp only [daysFromCivil]
  rw [hY]
  omega

/-- `civilFromDays` produces a valid month and day, and `daysFromCivil` is a
left inverse of it: decoding any day number and re-encoding gives the day
number back. -/
theorem daysFromCivil_civilFromDays (z : Int) :
    ∃ y m d, civilFromDays z = (y, m, d) ∧ 1 ≤ m ∧ m ≤ 12 ∧ 1 ≤ d ∧ d ≤ 31 ∧
      daysFromCivil y m d = z := by
  obtain ⟨hd0, hd1, hz⟩ := doeOf_bounds z
  obtain ⟨hy0, hy1, hdoy0, hdoy1⟩ := yoeI_doyI_bounds (doeOf z) hd0 hd1
  obtain ⟨hmp0, hmp1, hms, hd31⟩ := mpI_bounds (doyI (doeOf z)) hdoy0 hdoy1
  have hdoyEq : doeOf z - (365 * yoeI (doeOf z) + yoeI (doeOf z) / 4
      - yoeI (doeOf z) / 100) = doyI (doeOf z) := rfl
  refine ⟨_, _, _, rfl, ?_, ?_, ?_, ?_, ?_⟩
  · by_cases h10 : mpI (doyI (doeOf z)) < 10 <;> simp only [h10, if_pos, if_neg, if_true, if_false] <;> omega
  · by_cases h10 : mpI (doyI (doeOf z)) < 10 <;> simp only [h10, if_pos, if_neg, if_true, if_false] <;> omega
  · omega
  · omega
  · rw [daysFromCivil_eq _ _ _ (eraOf z) (yoeI (doeOf z)) ?_ hy0 hy1]
    · rw [mpOf_reconstruct _ hmp0 hmp1]
      omega
    · unfold yShiftOf
      by_cases h10 : mpI (doyI (doeOf z)) < 10 <;>
        simp only [h10, if_true, if_false, reduceIte] <;> split_ifs <;> omega

/-- Months have at most 31 days. -/
theorem daysInMonth_le (y m : Int) : daysInMonth y m ≤ 31 := by
  unfold daysInMonth
  split_ifs <;> omega

/-- Months other than February start at most at day-of-year 306. -/
theorem mpOf_le_ten {m : Int} (hm1 : 1 ≤ m) (hm2 : m ≤ 12) (hm : m ≠ 2) : mpOf m ≤ 10 := by
  unfold mpOf
  split_ifs <;> omega

/-- The month stage of `civilFromDays` recovers the March-based month index
from any valid day-of-year built by `daysFromCivil`. -/
theorem mpI_of_month (y m d : Int) (hm1 : 1 ≤ m) (hm2 : m ≤ 12) (hd1 : 1 ≤ d)
    (hd2 : d ≤ daysInMonth y m) :
    mpI ((153 * mpOf m + 2) / 5 + d - 1) = mpOf m := by
  have hfeb : m = 2 → d ≤ 29 := by
    intro h
    subst h
    simp only [daysInMonth, reduceIte] at hd2
    split_ifs at hd2 <;> omega
  have hd31 := le_trans hd2 (daysInMonth_le y m)
  have h30 : m = 4 ∨ m = 6 ∨ m = 9 ∨ m = 11 → d ≤ 30 := by
    intro h
    have : daysInMonth y m = 30 := by
      unfold daysInMonth
      rw [if_neg (by omega), if_pos h]
    omega
  clear hd2
  unfold mpI mpOf
  split_ifs with hm
  · rcases (by omega : m = 1 ∨ m = 2) with h | h <;> subst h <;>
      [skip; replace hfeb := hfeb rfl] <;> norm_num <;> omega
  · rcases (by omega : m = 3 ∨ m = 4 ∨ m = 5 ∨ m = 6 ∨ m = 7 ∨ m = 8 ∨ m = 9 ∨ m = 10
        ∨ m = 11 ∨ m = 12) with h | h | h | h | h | h | h | h | h | h <;> subst h <;>
      [skip; replace h30 := h30 (by norm_num); skip; replace h30 := h30 (by norm_num); skip;
        skip; replace h30 := h30 (by norm_num); skip; replace h30 := h30 (by norm_num); skip] <;>
      norm_num <;> omega

/-- Day-of-year bounds for a valid civil date, with the exact year-length bound
needed to stay inside the era-year (February 29 exists only in leap years). -/
theorem doy_le_yearLen (y m d era yoe : Int) (hm1 : 1 ≤ m) (hm2 : m ≤ 12)
    (hd1 : 1 ≤ d) (hd2 : d ≤ daysInMonth y m)
    (hY : yShiftOf y m = era * 400 + yoe) (h0 : 0 ≤ yoe) (h1 : yoe ≤ 399) :
    (153 * mpOf m + 2) / 5 + d - 1 ≤ 365 ∧
    (yoe ≤ 398 → (153 * mpOf m + 2) / 5 + d - 1
      ≤ 364 + ((yoe + 1) / 4 - yoe / 4) - ((yoe + 1) / 100 - yoe / 100)) := by
  by_cases hm : m = 2
  · subst hm
    simp only [daysInMonth, reduceIte] at hd2
    have hmp : mpOf 2 = 11 := by unfold mpOf; norm_num
    have hy : yShiftOf y 2 = y - 1 := by unfold yShiftOf; norm_num
    rw [hmp]
    rw [hy] at hY
    split_ifs at hd2 with hleap
    · simp only [isLeap, Bool.or_eq_true, Bool.and_eq_true, beq_iff_eq,
        bne_iff_ne, ne_eq] at hleap
      rcases hleap with ⟨h4, h100⟩ | h400 <;> omega
    · omega
  · have hdm := daysInMonth_le y m
    have hmp10 := mpOf_le_ten hm1 hm2 hm
    have hmp0 : 0 ≤ mpOf m := by unfold mpOf; split_ifs <;> omega
    omega

/-- Reconstruction of the civil month from its March-based index. -/
theorem month_reconstruct (m : Int) (hm1 : 1 ≤ m) (hm2 : m ≤ 12) :
    (if mpOf m < 10 then mpOf m + 3 else mpOf m - 9) = m := by
  unfold mpOf
  split_ifs <;> omega

/-- `civilFromDays` is a right inverse of `daysFromCivil` on valid civil
dates. -/
theorem civilFromDays_daysFromCivil (y m d : Int) (hm1 : 1 ≤ m) (hm2 : m ≤ 12)
    (hd1 : 1 ≤ d) (hd2 : d ≤ daysInMonth y m) :
    civilFromDays (daysFromCivil y m d) = (y, m, d) := by
  obtain ⟨era, hera⟩ : ∃ e, yShiftOf y m / 400 = e := ⟨_, rfl⟩
  obtain ⟨yoe, hyoe⟩ : ∃ w, yShiftOf y m - era * 400 = w := ⟨_, rfl⟩
  have hy0 : 0 ≤ yoe := by omega
  have hy1 : yoe ≤ 399 := by omega
  have hYs : yShiftOf y m = era * 400 + yoe := by omega
  have hz := daysFromCivil_eq y m d era yoe hYs hy0 hy1
  obtain ⟨hdoy365, hdoyLen⟩ := doy_le_yearLen y m d era yoe hm1 hm2 hd1 hd2 hYs hy0 hy1
  have hmp0 : 0 ≤ mpOf m := by unfold mpOf; split_ifs <;> omega
  have hms0 : 0 ≤ (153 * mpOf m + 2) / 5 := by omega
  obtain ⟨doe, hdoe⟩ : ∃ w, yoe * 365 + yoe / 4 - yoe / 100 + ((153 * mpOf m + 2) / 5 + d - 1) = w :=
    ⟨_, rfl⟩
  rw [hdoe] at hz
  have hdoe0 : 0 ≤ doe := by omega
  have hdoe1 : doe ≤ 146096 := by omega
  have hEra : eraOf (daysFromCivil y m d) = era := by
    unfold eraOf
    rw [hz]
    omega
  have hDoe : doeOf (daysFromCivil y m d) = doe := by
    unfold doeOf
    rw [hEra, hz]
    omega
  have hYoeNat : yoeOf doe.toNat = yoe.toNat := by
    apply yoeOf_eq_of_bracket (by omega)
    · have hc := yearStart_cast yoe hy0
      omega
    · unfold yearEnd
      rcases Int.lt_or_le yoe 399 with h399 | h399
      · rw [if_neg (by omega)]
        have hc := yearStart_cast (yoe + 1) (by omega)
        have hc0 := yearStart_cast yoe hy0
        have hLen := hdoyLen (by omega)
        have : yoe.toNat + 1 = (yoe + 1).toNat := by omega
        rw [this]
        omega
      · rw [if_pos (by omega)]
        omega
  have hYoe : yoeI doe = yoe := by
    rw [yoeI_eq_cast doe hdoe0, hYoeNat]
    omega
  have hDoy : doyI doe = (153 * mpOf m + 2) / 5 + d - 1 := by
    unfold doyI
    rw [hYoe]
    omega
  have hMp : mpI ((153 * mpOf m + 2) / 5 + d - 1) = mpOf m :=
    mpI_of_month y m d hm1 hm2 hd1 hd2
  simp only [civilFromDays]
  rw [hDoe, hYoe, hDoy, hMp, month_reconstruct m hm1 hm2, hEra]
  have hyComp : yoe + era * 400 + (if m ≤ 2 then 1 else 0) = y := by
    unfold yShiftOf at hYs
    split_ifs at hYs ⊢ <;> omega
  rw [hyComp]
  have hdComp : (153 * mpOf m + 2) / 5 + d - 1 - (153 * mpOf m + 2) / 5 + 1 = d := by omega
  rw [hdComp]

/-! ## ECMAScript `Date` operations on millisecond timestamps -/

/-- ECMA-262 `Day(t)`: day number containing timestamp `t`. -/
def dayOf (t : Int) : Int := t / 86400000

/-- ECMA-262 `TimeWithinDay(t)`. -/
def timeOfDay (t : Int) : Int := t % 86400000

/-- `Date.prototype.getDay`: ECMA-262 `WeekDay(t) = (Day(t) + 4) modulo 7`,
Sunday = 0. -/
def getDay (t : Int) : Int := (dayOf t + 4) % 7

/-- `Date.prototype.getFullYear`. -/
def getFullYear (t : Int) : Int := (civilFromDays (dayOf t)).1

/-- `Date.prototype.getMonth` (0-based month, as in ECMAScript). -/
def getMonth (t : Int) : Int := (civilFromDays (dayOf t)).2.1 - 1

/-- `Date.prototype.getDate` (1-based day of month). -/
def getDate (t : Int) : Int := (civilFromDays (dayOf t)).2.2

/-- `Date.prototype.setHours(h, mi, s, ms)`:
`MakeDate(Day(t), MakeTime(h, mi, s, ms))`. -/
def setHours (t h mi s ms : Int) : Int :=
  dayOf t * 86400000 + ((h * 60 + mi) * 60 + s) * 1000 + ms

/-- `Date.prototype.setDate(d)`:
`MakeDate(MakeDay(YearFromTime(t), MonthFromTime(t), d), TimeWithinDay(t))`;
`MakeDay` is linear in the day argument, hence the overflow behaviour. -/
def setDate (t d : Int) : Int :=
  daysFromCivil (getFullYear t) (getMonth t + 1) d * 86400000 + timeOfDay t

/-- `Date.prototype.setMonth(m)` (0-based month argument):
`MakeDay` first normalises the month into the year (`ym = y + floor(m / 12)`,
`mn = m modulo 12`), then keeps the current day of month, overflowing into the
following month when it does not exist. -/
def setMonth (t mo : Int) : Int :=
  daysFromCivil (getFullYear t + mo / 12) (mo % 12 + 1) (getDate t) * 86400000 + timeOfDay t

/-- `daysFromCivil` is linear in the day argument (ECMAScript `MakeDay`
overflow). -/
theorem daysFromCivil_add (y m d k : Int) :
    daysFromCivil y m (d + k) = daysFromCivil y m d + k := by
  simp only [daysFromCivil]
  omega

/-- Re-encoding the civil getters of a timestamp gives back its day number. -/
theorem daysFromCivil_getDate (t : Int) :
    daysFromCivil (getFullYear t) (getMonth t + 1) (getDate t) = dayOf t := by
  obtain ⟨y, m, d, hc, _, _, _, _, henc⟩ := daysFromCivil_civilFromDays (dayOf t)
  unfold getFullYear getMonth getDate
  rw [hc]
  have hm : (y, m, d).2.1 - 1 + 1 = m := by simp
  rw [hm]
  simpa using henc

/-- `setDate` relative to the current day of month is a plain day shift. -/
theorem setDate_getDate_add (t k : Int) : setDate t (getDate t + k) = t + k * 86400000 := by
  unfold setDate
  rw [daysFromCivil_add, daysFromCivil_getDate]
  unfold dayOf timeOfDay
  omega

/-- Decomposition of a timestamp into day number and time within day. -/
theorem dayOf_decomp (t : Int) :
    t = dayOf t * 86400000 + timeOfDay t ∧ 0 ≤ timeOfDay t ∧ timeOfDay t < 86400000 := by
  unfold dayOf timeOfDay
  omega

/-- For an in-range time of day, `setHours` stays on the same day and sets the
time within the day. -/
theorem setHours_decomp (t h mi : Int) (h0 : 0 ≤ h) (h23 : h ≤ 23) (m0 : 0 ≤ mi)
    (m59 : mi ≤ 59) :
    dayOf (setHours t h mi 0 0) = dayOf t ∧
    timeOfDay (setHours t h mi 0 0) = (h * 60 + mi) * 60000 := by
  unfold setHours dayOf timeOfDay
  constructor
  · omega
  · omega

/-! ## Data model (`src/types/reminder.ts`) -/

/-- `Frequency` from `src/types/reminder.ts`. -/
inductive Frequency where
  | daily
  | weekly
  | monthly
  | once
deriving DecidableEq, Repr

/-- `WeekDay` from `src/types/reminder.ts`. -/
inductive WeekDay where
  | mon
  | tue
  | wed
  | thu
  | fri
  | sat
  | sun
deriving DecidableEq, Repr

/-- `ReminderTime` from `src/types/reminder.ts` (`hour`, `minute` are
ECMAScript numbers; the UI keeps them in `0–23` / `0–59`). -/
structure ReminderTime where
  hour : Int
  minute : Int
deriving DecidableEq, Repr

/-- `Reminder` from `src/types/reminder.ts`.  The ISO date strings `date` and
`lastTriggered` are modelled by the millisecond timestamps they parse to. -/
structure Reminder where
  id : String
  contactName : String
  phoneNumber : String
  message : String
  time : ReminderTime
  frequency : Frequency
  weekDays : Option (List WeekDay)
  monthDay : Option Int
  date : Option Int
  isActive : Bool
  lastTriggered : Option Int
deriving DecidableEq, Repr

/-- The day-string-to-number map of the `weekly` branch of
`getNextOccurrence` (`sun: 0, mon: 1, …, sat: 6`). -/
def dayMap : WeekDay → Int
  | .sun => 0
  | .mon => 1
  | .tue => 2
  | .wed => 3
  | .thu => 4
  | .fri => 5
  | .sat => 6

/-- The `for (let i = 0; i < 7; i++) { if (…) { daysToAdd = i; break } }` scan
of the `weekly` branch: first index `i` (starting at `start`, for `fuel`
iterations) satisfying `p`. -/
def scanFirst (p : Int → Bool) : Int → Nat → Option Int
  | _, 0 => none
  | i, fuel + 1 => if p i then some i else scanFirst p (i + 1) fuel

/-! ## The occurrence calculator (`getNextOccurrence`,
`src/utils/reminderUtils.ts`).

The source reads the clock itself (`const now = new Date()`); the embedding
takes the same instant `now` as an explicit argument.  The JavaScript
falsiness checks `!reminder.weekDays || reminder.weekDays.length === 0` and
`!reminder.monthDay` are modelled exactly (for `monthDay`, both an absent
field and the falsy number `0` yield `null`). -/

/-- `getNextOccurrence` from `src/utils/reminderUtils.ts`. -/
def getNextOccurrence (r : Reminder) (now : Int) : Option Int :=
  let today := getDay now
  let reminderTime := setHours now r.time.hour r.time.minute 0 0
  match r.frequency with
  | .daily =>
      some (if reminderTime ≤ now then setDate reminderTime (getDate reminderTime + 1)
            else reminderTime)
  | .weekly =>
      match r.weekDays with
      | none => none
      | some ds =>
        if ds.length = 0 then none
        else
          let weekDayNumbers := ds.map dayMap
          match scanFirst (fun i => weekDayNumbers.contains ((today + i) % 7)) 0 7 with
          | none => none
          | some daysToAdd =>
            let rt := setDate reminderTime (getDate reminderTime + daysToAdd)
            some (if daysToAdd = 0 ∧ rt ≤ now then setDate rt (getDate rt + 7) else rt)
  | .monthly =>
      match r.monthDay with
      | none => none
      | some md =>
        if md = 0 then none
        else
          let rt := setDate reminderTime md
          some (if rt ≤ now then setMonth rt (getMonth rt + 1) else rt)
  | .once =>
      match r.date with
      | none => none
      | some dt =>
        let oneTimeDate := setHours dt r.time.hour r.time.minute 0 0
        if oneTimeDate ≤ now then none else some oneTimeDate

/-! ## The due check (`checkReminder`, `src/services/NotificationService.ts`).

`checkReminder` returns `true` exactly when it fires the side effects
(notification, sound, deep link, due callback) and then attempts to persist
`lastTriggered`.  The embedding returns that Boolean.  As in the source, the
decision reads only the passed reminder (including its stored `lastTriggered`)
and the clock. -/

/-- `checkReminder` from `src/services/NotificationService.ts`. -/
def checkReminder (r : Reminder) (now : Int) : Bool :=
  if r.isActive = false then false
  else
    match getNextOccurrence r now with
    | none => false
    | some nextOccurrence =>
      let diffMs := nextOccurrence - now
      let diffSecs := diffMs / 1000
      if -30 ≤ diffSecs ∧ diffSecs ≤ 30 then
        match r.lastTriggered with
        | none => true
        | some lastTriggered => decide (lastTriggered < now - 5 * 60 * 1000)
      else false

/-! ## Scheduler session state (`NotificationService`) -/

/-- The mutable fields of the `NotificationService` singleton that the claims
are about: the cached reminder list, whether the repeating check interval is
installed, and whether the alert sound is playing (`audio && !audio.paused`). -/
structure SchedulerState where
  reminders : List Reminder
  checkIntervalSet : Bool
  soundPlaying : Bool
deriving Repr

/-- `setReminders` from `src/services/NotificationService.ts`:
`this.reminders = reminders.filter(r => r.isActive)`. -/
def setReminders (s : SchedulerState) (rs : List Reminder) : SchedulerState :=
  { s with reminders := rs.filter (fun r => r.isActive) }

/-- `cleanup` from `src/services/NotificationService.ts`: clears the interval,
stops the sound and empties the cache. -/
def cleanup (s : SchedulerState) : SchedulerState :=
  { s with checkIntervalSet := false, soundPlaying := false, reminders := [] }

/-- JavaScript truthiness of an arbitrary object.  In
`checkReminders`, `const isDue = this.checkReminder(reminder)` binds `isDue`
to a `Promise` — `checkReminder` is `async` and is not awaited — and every
object, in particular every `Promise`, is truthy. -/
def promiseTruthy {α : Type} (_ : α) : Bool := true

/-- Whether one `checkReminders` tick (`src/services/NotificationService.ts`,
lines 126–146) invokes `stopSound`: the guard is
`reminders.length > 0`, then `!hasDueReminders && audio && !audio.paused`,
where `hasDueReminders` is accumulated from the truthiness of the
un-awaited `checkReminder` results. -/
def checkRemindersStopsSound (s : SchedulerState) (now : Int) : Bool :=
  if s.reminders.length > 0 then
    let hasDueReminders := s.reminders.foldl
      (fun acc r => if promiseTruthy (checkReminder r now) then true else acc) false
    !hasDueReminders && s.soundPlaying
  else false

/-! ## Phone and deep-link utilities (`src/utils/phoneUtils.ts`,
`src/utils/reminderUtils.ts`) -/

/-- `phoneNumber.replace(/\D/g, '')`. -/
def digitsOnly (s : String) : String := String.mk (s.data.filter Char.isDigit)

/-- `/^[6-9]/.test(s)`. -/
def firstDigitSixToNine (s : String) : Bool :=
  match s.data with
  | [] => false
  | c :: _ => decide ('6' ≤ c ∧ c ≤ '9')

/-- `s.startsWith(lead)` on the character lists of cleaned digit strings
(structural recursion so that concrete evaluations reduce in the kernel). -/
def charListHasLead : List Char → List Char → Bool
  | [], _ => true
  | _ :: _, [] => false
  | p :: ps, c :: cs => p == c && charListHasLead ps cs

/-- `isLikelyIndianNumber` from `src/utils/phoneUtils.ts`. -/
def isLikelyIndianNumber (p : String) : Bool :=
  let cleaned := digitsOnly p
  (cleaned.length == 10 && firstDigitSixToNine cleaned)
    || (charListHasLead ['9', '1'] cleaned.data && cleaned.length == 12)
    || (charListHasLead ['0', '9', '1'] cleaned.data && cleaned.length == 13)

/-- `ensureIndianCountryCode` from `src/utils/phoneUtils.ts`. -/
def ensureIndianCountryCode (p : String) : String :=
  let cleaned := digitsOnly p
  if cleaned.length == 10 && firstDigitSixToNine cleaned then "91" ++ cleaned else cleaned

/-- `getWhatsAppLink` from `src/utils/reminderUtils.ts`. -/
def getWhatsAppLink (p : String) : String := "https://wa.me/" ++ digitsOnly p

/-- Unreserved characters of ECMAScript `encodeURIComponent`
(`uriAlpha`, `DecimalDigit` and `uriMark`). -/
def isUnreservedURIChar (c : Char) : Bool :=
  c.isAlpha || c.isDigit || c == '-' || c == '_' || c == '.' || c == '!' || c == '~'
    || c == '*' || c == '\'' || c == '(' || c == ')'

/-- Upper-case hexadecimal digit, as produced by `encodeURIComponent`. -/
def hexDigitChar (n : Nat) : Char :=
  if n < 10 then Char.ofNat (48 + n) else Char.ofNat (55 + n)

/-- UTF-8 code units of a code point (ECMAScript percent-encodes the UTF-8
encoding of each character). -/
def utf8Units (n : Nat) : List Nat :=
  if n < 128 then [n]
  else if n < 2048 then [192 + n / 64, 128 + n % 64]
  else if n < 65536 then [224 + n / 4096, 128 + n / 64 % 64, 128 + n % 64]
  else [240 + n / 262144, 128 + n / 4096 % 64, 128 + n / 64 % 64, 128 + n % 64]

/-- `%XX` escape sequence of one UTF-8 code unit. -/
def percentEncodeChar (c : Char) : List Char :=
  (utf8Units c.toNat).foldr (fun b acc => '%' :: hexDigitChar (b / 16) :: hexDigitChar (b % 16) :: acc) []

/-- ECMAScript `encodeURIComponent`. -/
def encodeURIComponent (s : String) : String :=
  String.mk (s.data.foldr
    (fun c acc => if isUnreservedURIChar c then c :: acc else percentEncodeChar c ++ acc) [])

/-- `getIndianWhatsAppLink` from `src/utils/phoneUtils.ts`.  The message is
appended only when it is truthy (the empty string is falsy). -/
def getIndianWhatsAppLink (p msg : String) : String :=
  let processedNumber := ensureIndianCountryCode p
  let whatsappUrl := "https://wa.me/" ++ processedNumber
  if msg = "" then whatsappUrl else whatsappUrl ++ "?text=" ++ encodeURIComponent msg

/-- The URL that `openWhatsApp` (`src/services/NotificationService.ts`,
lines 287–318) opens for a due reminder.  The mobile/desktop check only
chooses how the URL is opened, not its text; the Indian-number branch uses
`getIndianWhatsAppLink`, the other branch appends `&text=` (sic) to
`getWhatsAppLink`. -/
def openWhatsAppUrl (r : Reminder) : String :=
  if isLikelyIndianNumber r.phoneNumber then
    getIndianWhatsAppLink r.phoneNumber r.message
  else
    getWhatsAppLink r.phoneNumber ++ "&text=" ++ encodeURIComponent r.message

/-- Modelled from the spec: the deep-link format of spec section 6 —
`https://wa.me/<digitsOnlyPhoneWithCountryCode>?text=<URL-encoded message>`,
where the digits-only number gets a `91` country code exactly when it has
10 digits and starts with 6–9 (the behaviour of `ensureIndianCountryCode`),
and is used as-is otherwise. -/
def specDeepLink (r : Reminder) : String :=
  "https://wa.me/" ++ ensureIndianCountryCode r.phoneNumber
    ++ "?text=" ++ encodeURIComponent r.message

/-! ## Characterisations of the occurrence calculator -/

/-- The `daily` branch: today at the reminder's time, or tomorrow if that has
passed. -/
theorem getNextOccurrence_daily (r : Reminder) (now : Int) (hf : r.frequency = .daily) :
    getNextOccurrence r now =
      some (if setHours now r.time.hour r.time.minute 0 0 ≤ now
            then setHours now r.time.hour r.time.minute 0 0 + 86400000
            else setHours now r.time.hour r.time.minute 0 0) := by
  simp only [getNextOccurrence, hf]
  split
  · rw [setDate_getDate_add]
    norm_num
  · rfl

/-- The daily occurrence is strictly in the future when the reminder's time
fields are nonnegative. -/
theorem getNextOccurrence_daily_future (r : Reminder) (now : Int) (hf : r.frequency = .daily)
    (hh : 0 ≤ r.time.hour) (hm : 0 ≤ r.time.minute) :
    ∀ t, getNextOccurrence r now = some t → now < t := by
  intro t ht
  rw [getNextOccurrence_daily r now hf, Option.some_inj] at ht
  have hd := dayOf_decomp now
  have hsh : setHours now r.time.hour r.time.minute 0 0
      = dayOf now * 86400000 + ((r.time.hour * 60 + r.time.minute) * 60 + 0) * 1000 + 0 := rfl
  split at ht <;> omega

/-- `scanFirst` finds an index satisfying `p`, minimal among the scanned
range. -/
theorem scanFirst_spec {p : Int → Bool} :
    ∀ (f : Nat) (i j : Int), scanFirst p i f = some j →
      p j = true ∧ i ≤ j ∧ j < i + f ∧ ∀ k, i ≤ k → k < j → p k = false := by
  intro f
  induction f with
  | zero => intro i j h; simp [scanFirst] at h
  | succ f ih =>
    intro i j h
    simp only [scanFirst] at h
    split at h
    · cases h
      refine ⟨by assumption, le_refl _, by omega, ?_⟩
      intro k hk1 hk2
      omega
    · obtain ⟨hp, hle, hlt, hmin⟩ := ih (i + 1) j h
      refine ⟨hp, by omega, by omega, ?_⟩
      intro k hk1 hk2
      rcases eq_or_lt_of_le hk1 with hk | hk
      · subst hk
        rename_i hfalse
        simp at hfalse
        exact hfalse
      · exact hmin k (by omega) hk2

/-- If `scanFirst` fails, no index in the scanned range satisfies `p`. -/
theorem scanFirst_none {p : Int → Bool} :
    ∀ (f : Nat) (i : Int), scanFirst p i f = none →
      ∀ k, i ≤ k → k < i + f → p k = false := by
  intro f
  induction f with
  | zero => intro i _ k hk1 hk2; omega
  | succ f ih =>
    intro i h k hk1 hk2
    simp only [scanFirst] at h
    split at h
    · cases h
    · rcases eq_or_lt_of_le hk1 with hk | hk
      · subst hk
        rename_i hfalse
        simp at hfalse
        exact hfalse
      · exact ih (i + 1) h k (by omega) (by omega)

/-- The weekday is always in `[0, 6]`. -/
theorem getDay_bounds (t : Int) : 0 ≤ getDay t ∧ getDay t < 7 := by
  unfold getDay
  omega

/-- Weekday of a day-shifted time-of-day instant. -/
theorem getDay_shift (now h mi k : Int) (hh0 : 0 ≤ h) (hh1 : h ≤ 23) (hm0 : 0 ≤ mi)
    (hm1 : mi ≤ 59) :
    getDay (setHours now h mi 0 0 + k * 86400000) = (getDay now + k) % 7 := by
  unfold getDay setHours dayOf
  omega

/-- `dayMap` lands in `[0, 6]`. -/
theorem dayMap_bounds (w : WeekDay) : 0 ≤ dayMap w ∧ dayMap w ≤ 6 := by
  cases w <;> simp [dayMap]

/-- The `weekly` branch: the scan over the next seven days succeeds, and the
result is the scanned offset applied to today's instant at the reminder's
time, pushed a week out when the match is today but the time has passed. -/
theorem getNextOccurrence_weekly (r : Reminder) (now : Int) (ds : List WeekDay)
    (hf : r.frequency = .weekly) (hds : r.weekDays = some ds) (hne : ds ≠ []) :
    ∃ i, scanFirst (fun i => ((ds.map dayMap).contains ((getDay now + i) % 7))) 0 7 = some i ∧
      getNextOccurrence r now =
        some (if i = 0 ∧ setHours now r.time.hour r.time.minute 0 0 ≤ now
              then setHours now r.time.hour r.time.minute 0 0 + 7 * 86400000
              else setHours now r.time.hour r.time.minute 0 0 + i * 86400000) := by
  obtain ⟨w, hw⟩ := List.exists_mem_of_ne_nil ds hne
  have hb := getDay_bounds now
  have hwb := dayMap_bounds w
  have hk1 : 0 ≤ (dayMap w - getDay now) % 7 := by omega
  have hk2 : (dayMap w - getDay now) % 7 < 7 := by omega
  have hk3 : (getDay now + (dayMap w - getDay now) % 7) % 7 = dayMap w := by omega
  have hcont : ((ds.map dayMap).contains ((getDay now + (dayMap w - getDay now) % 7) % 7)) = true := by
    rw [hk3]
    have : dayMap w ∈ ds.map dayMap := List.mem_map_of_mem dayMap hw
    exact List.elem_eq_true_of_mem this
  rcases hscan : scanFirst (fun i => ((ds.map dayMap).contains ((getDay now + i) % 7))) 0 7 with _ | i
  · exfalso
    have := scanFirst_none 7 0 hscan ((dayMap w - getDay now) % 7) hk1 (by omega)
    rw [hcont] at this
    cases this
  · refine ⟨i, rfl, ?_⟩
    obtain ⟨hpi, hi0, hi7, hmin⟩ := scanFirst_spec 7 0 i hscan
    have hlen : ¬ (ds.length = 0) := by simpa using hne
    simp only [getNextOccurrence, hf, hds]
    rw [if_neg hlen]
    simp only [hscan]
    rw [setDate_getDate_add]
    by_cases hi : i = 0
    · subst hi
      simp only [zero_mul, add_zero]
      rw [setDate_getDate_add]
    · rw [if_neg (by tauto), if_neg (by tauto)]

/-- Civil getters of a timestamp assembled from a valid civil date and a time
within the day. -/
theorem getters_of_daysFromCivil (y m d : Int) (hm1 : 1 ≤ m) (hm2 : m ≤ 12) (hd1 : 1 ≤ d)
    (hd2 : d ≤ daysInMonth y m) (tod : Int) (h0 : 0 ≤ tod) (h1 : tod < 86400000) :
    getFullYear (daysFromCivil y m d * 86400000 + tod) = y ∧
    getMonth (daysFromCivil y m d * 86400000 + tod) = m - 1 ∧
    getDate (daysFromCivil y m d * 86400000 + tod) = d ∧
    timeOfDay (daysFromCivil y m d * 86400000 + tod) = tod := by
  have hday : dayOf (daysFromCivil y m d * 86400000 + tod) = daysFromCivil y m d := by
    unfold dayOf; omega
  have htod : timeOfDay (daysFromCivil y m d * 86400000 + tod) = tod := by
    unfold timeOfDay; omega
  have hc := civilFromDays_daysFromCivil y m d hm1 hm2 hd1 hd2
  unfold getFullYear getMonth getDate
  rw [hday, hc]
  exact ⟨rfl, rfl, rfl, htod⟩

/-- The civil month of any timestamp is in `[1, 12]`. -/
theorem getMonth_bounds (t : Int) : 1 ≤ getMonth t + 1 ∧ getMonth t + 1 ≤ 12 := by
  obtain ⟨y, m, d, hc, h1, h2, _, _, _⟩ := daysFromCivil_civilFromDays (dayOf t)
  unfold getMonth
  rw [hc]
  simp only
  omega

/-- The `monthly` branch with a truthy `monthDay`. -/
theorem getNextOccurrence_monthly (r : Reminder) (now : Int) (md : Int)
    (hf : r.frequency = .monthly) (hmd : r.monthDay = some md) (hmd0 : md ≠ 0) :
    getNextOccurrence r now =
      some (if setDate (setHours now r.time.hour r.time.minute 0 0) md ≤ now
            then setMonth (setDate (setHours now r.time.hour r.time.minute 0 0) md)
              (getMonth (setDate (setHours now r.time.hour r.time.minute 0 0) md) + 1)
            else setDate (setHours now r.time.hour r.time.minute 0 0) md) := by
  simp only [getNextOccurrence, hf, hmd]
  rw [if_neg hmd0]

/-- The `once` branch. -/
theorem getNextOccurrence_once (r : Reminder) (now : Int)
    (hf : r.frequency = .once) :
    getNextOccurrence r now =
      match r.date with
      | none => none
      | some dt =>
        if setHours dt r.time.hour r.time.minute 0 0 ≤ now then none
        else some (setHours dt r.time.hour r.time.minute 0 0) := by
  simp only [getNextOccurrence, hf]

/-- `checkReminder` is `false` when no occurrence exists. -/
theorem checkReminder_no_occurrence (r : Reminder) (now : Int)
    (hNext : getNextOccurrence r now = none) : checkReminder r now = false := by
  unfold checkReminder
  rw [hNext]
  split <;> rfl

/-- Reduction of `checkReminder` once the occurrence is known. -/
theorem checkReminder_some (r : Reminder) (now next : Int) (hAct : r.isActive = true)
    (hNext : getNextOccurrence r now = some next) :
    checkReminder r now =
      (if -30 ≤ (next - now) / 1000 ∧ (next - now) / 1000 ≤ 30 then
        (match r.lastTriggered with
         | none => true
         | some lastTriggered => decide (lastTriggered < now - 5 * 60 * 1000))
       else false) := by
  unfold checkReminder
  rw [hAct, hNext]
  simp

/-- Firing characterisation of `checkReminder`: it returns `true` exactly when
the reminder is active, a next occurrence exists whose floored signed offset in
seconds lies in `[-30, 30]`, and the stored `lastTriggered` is absent or more
than five minutes old.  Nothing else — in particular no in-memory state —
enters the decision. -/
theorem checkReminder_iff (r : Reminder) (now : Int) :
    checkReminder r now = true ↔
      r.isActive = true ∧
      ∃ next, getNextOccurrence r now = some next ∧
        -30 ≤ (next - now) / 1000 ∧ (next - now) / 1000 ≤ 30 ∧
        (r.lastTriggered = none ∨ ∃ lt, r.lastTriggered = some lt ∧ lt < now - 300000) := by
  constructor
  · intro h
    have hAct : r.isActive = true := by
      by_contra hA
      have hA' : r.isActive = false := by simpa using hA
      unfold checkReminder at h
      rw [if_pos hA'] at h
      cases h
    refine ⟨hAct, ?_⟩
    rcases hNext : getNextOccurrence r now with _ | next
    · rw [checkReminder_no_occurrence r now hNext] at h
      cases h
    · rw [checkReminder_some r now next hAct hNext] at h
      split at h
      · rename_i hdue
        refine ⟨next, rfl, hdue.1, hdue.2, ?_⟩
        rcases hLt : r.lastTriggered with _ | lt
        · exact Or.inl rfl
        · rw [hLt] at h
          simp only [decide_eq_true_eq] at h
          exact Or.inr ⟨lt, rfl, by omega⟩
      · cases h
  · rintro ⟨hAct, next, hNext, hb1, hb2, hcool⟩
    rw [checkReminder_some r now next hAct hNext, if_pos ⟨hb1, hb2⟩]
    rcases hcool with hnone | ⟨lt, hlt, hbound⟩
    · rw [hnone]
    · rw [hlt]
      simp only [decide_eq_true_eq]
      omega

/-- If the cached list is nonempty, the tick's `hasDueReminders` accumulator is
`true` — each un-awaited `checkReminder` call contributes a truthy `Promise`. -/
theorem hasDue_foldl_true (now : Int) :
    ∀ (l : List Reminder) (acc : Bool), l ≠ [] →
      l.foldl (fun acc r => if promiseTruthy (checkReminder r now) then true else acc) acc = true := by
  intro l
  induction l with
  | nil => intro acc h; cases h rfl
  | cons x xs ih =>
    intro acc _
    simp only [List.foldl_cons, promiseTruthy, if_pos]
    rcases xs with _ | ⟨y, ys⟩
    · rfl
    · exact ih true (by simp)

/-- Membership in the mapped weekday list, read off `List.contains`. -/
theorem contains_dayMap_iff (ds : List WeekDay) (x : Int) :
    ((ds.map dayMap).contains x) = true ↔ ∃ w ∈ ds, dayMap w = x := by
  rw [List.contains_iff_exists_mem_beq]
  constructor
  · rintro ⟨a, ha, hbeq⟩
    obtain ⟨w, hw, rfl⟩ := List.mem_map.mp ha
    exact ⟨w, hw, (eq_of_beq hbeq).symm⟩
  · rintro ⟨w, hw, rfl⟩
    exact ⟨dayMap w, List.mem_map_of_mem dayMap hw, by simp⟩

/-- Time within the day is invariant under whole-day shifts. -/
theorem timeOfDay_shift (x k : Int) : timeOfDay (x + k * 86400000) = timeOfDay x := by
  unfold timeOfDay
  omega

/-! ## Fixtures used in the concrete counterexamples and witnesses.

Day number 4 (1970-01-05) is a Monday; `378000000 = 4 * 86400000 + 9 h` is
Monday 09:00, `381600000` Monday 10:00, `550800000` Wednesday 1970-01-07
09:00, `982800000` Monday 1970-01-12 09:00.  `1642672800000` is
2022-01-20 10:00, `1644915600000` is 2022-02-15 09:00.  All times are in the
modelled local time zone. -/

/-- A daily 09:00 reminder for a non-Indian number, active, never fired. -/
def fixtureReminder : Reminder :=
  { id := "r1", contactName := "Asha", phoneNumber := "+1 202 555 0123", message := "hi",
    time := { hour := 9, minute := 0 }, frequency := .daily, weekDays := none,
    monthDay := none, date := none, isActive := true, lastTriggered := none }

/-- Weekly Monday/Wednesday 09:00 reminder. -/
def weeklyFixture : Reminder :=
  { fixtureReminder with
    frequency := Frequency.weekly
    weekDays := some [WeekDay.mon, WeekDay.wed] }

/-- Monthly reminder on the 15th at 09:00. -/
def monthlyFixture : Reminder :=
  { fixtureReminder with frequency := .monthly, monthDay := some 15 }

/-- One-time reminder for 2023-01-01 at 12:00. -/
def onceFixture : Reminder :=
  { fixtureReminder with
    frequency := .once
    time := { hour := 12, minute := 0 }
    date := some 1672531200000 }

/-- An inactive reminder. -/
def inactiveFixture : Reminder := { fixtureReminder with id := "r2", isActive := false }

/-! ## The claims -/

/-- C1, counterexample: for the daily 09:00 reminder, at 09:00:05 the wall
clock is within 5 s of the scheduled instant (`setHours` of 09:00 gives
`378000000`, and `now = 378005000`), yet `checkReminder` reports not-due —
because `getNextOccurrence` has already rolled over to tomorrow — contradicting
the claimed `due=true` at 09:00:05 under the ±30 s tolerance. -/
theorem c1_counterexample :
    setHours 378005000 9 0 0 0 = 378000000 ∧
    (378005000 - 378000000 : Int) ≤ 30000 ∧
    checkReminder fixtureReminder 378005000 = false := by decide

/-- C1, amended: for an active daily reminder with no stored `lastTriggered`,
the next occurrence is always strictly in the future, and `checkReminder`
fires exactly when that occurrence is at most `30999` ms away — i.e. during
the ≈31-second window before the scheduled instant, and never at or after
it. -/
theorem c1_daily_due_window (r : Reminder) (now : Int)
    (hf : r.frequency = .daily) (hAct : r.isActive = true) (hLt : r.lastTriggered = none)
    (hh : 0 ≤ r.time.hour) (hm : 0 ≤ r.time.minute) :
    ∃ next, getNextOccurrence r now = some next ∧ now < next ∧
      (checkReminder r now = true ↔ next - now ≤ 30999) := by
  have hd := getNextOccurrence_daily r now hf
  have hfut := getNextOccurrence_daily_future r now hf hh hm _ hd
  refine ⟨_, hd, hfut, ?_⟩
  rw [checkReminder_iff]
  constructor
  · rintro ⟨-, next', hn', hb1, hb2, -⟩
    rw [hd, Option.some_inj] at hn'
    omega
  · intro hle
    exact ⟨hAct, _, hd, by omega, by omega, Or.inl hLt⟩

/-- C1, witness: 25 seconds before the daily 09:00 instant the reminder is
due. -/
theorem c1_witness : checkReminder fixtureReminder 377975000 = true := by
  obtain ⟨next, hn, hfut, hiff⟩ := c1_daily_due_window fixtureReminder 377975000 rfl rfl rfl
    (by decide) (by decide)
  have hval : getNextOccurrence fixtureReminder 377975000 = some 378000000 := by decide
  rw [hval, Option.some_inj] at hn
  exact hiff.mpr (by omega)

/-- C2: the deep link the code opens for a due non-Indian-number reminder
separates the pre-filled text with `&` instead of `?`
(`openWhatsApp` appends `&text=` to `getWhatsAppLink`, which has no query
string), so it differs from the specified
`https://wa.me/<digits>?text=<encoded>` format. -/
theorem c2_deep_link_bug :
    openWhatsAppUrl fixtureReminder = "https://wa.me/12025550123&text=hi" ∧
    specDeepLink fixtureReminder = "https://wa.me/12025550123?text=hi" ∧
    openWhatsAppUrl fixtureReminder ≠ specDeepLink fixtureReminder := by decide

/-- C4, counterexample: two `checkReminder` calls 15 s apart (one scheduler
tick, far inside the 5-minute cool-down window), with the stored
`lastTriggered` unchanged (absent) between them, both fire their side
effects — "at most once" fails. -/
theorem c4_counterexample :
    checkReminder fixtureReminder 377980000 = true ∧
    checkReminder fixtureReminder 377995000 = true ∧
    (377995000 - 377980000 : Int) = 15000 := by decide

/-- C4, amended: `checkReminder` keeps no in-memory record of having fired;
suppression reads only the stored `lastTriggered` of the passed reminder.
Hence a call that fires does not inhibit a later call: whenever the second
call's own due-window and (unchanged-`lastTriggered`) cool-down conditions
hold, it fires again. -/
theorem c4_no_memory (r : Reminder) (now₁ now₂ : Int)
    (h1 : checkReminder r now₁ = true)
    (hdue : ∃ next, getNextOccurrence r now₂ = some next ∧
      -30 ≤ (next - now₂) / 1000 ∧ (next - now₂) / 1000 ≤ 30)
    (hcool : r.lastTriggered = none ∨ ∃ lt, r.lastTriggered = some lt ∧ lt < now₂ - 300000) :
    checkReminder r now₂ = true := by
  obtain ⟨next, hn, hb1, hb2⟩ := hdue
  have hAct : r.isActive = true := ((checkReminder_iff r now₁).mp h1).1
  exact (checkReminder_iff r now₂).mpr ⟨hAct, next, hn, hb1, hb2, hcool⟩

/-- C4, witness: the amended theorem applied to the two concrete calls of the
counterexample scenario. -/
theorem c4_witness : checkReminder fixtureReminder 377995000 = true :=
  c4_no_memory fixtureReminder 377980000 377995000 (by decide)
    ⟨378000000, by decide, by decide, by decide⟩ (Or.inl (by decide))

/-- C6: a `checkReminders` tick never stops the sound.  `checkReminder` is
`async` and its un-awaited result is a `Promise`, which is truthy, so
`hasDueReminders` is `true` whenever the cache is nonempty (and with an empty
cache the guard skips the stop as well).  Concretely: with one cached,
currently not-due reminder and the sound playing, the tick leaves the sound
on, although the spec says it must be stopped. -/
theorem c6_sound_never_stopped :
    (∀ (s : SchedulerState) (now : Int), checkRemindersStopsSound s now = false) ∧
    checkReminder fixtureReminder 0 = false ∧
    checkRemindersStopsSound
      { reminders := [fixtureReminder], checkIntervalSet := true, soundPlaying := true } 0
      = false := by
  refine ⟨?_, by decide, by decide⟩
  intro s now
  unfold checkRemindersStopsSound
  rcases hl : s.reminders with _ | ⟨x, xs⟩
  · simp
  · rw [if_pos (by simp)]
    rw [hasDue_foldl_true now (x :: xs) false (by simp)]
    simp

/-- C7, counterexample: re-invoking the calculator with a synthetic
`lastTriggered` equal to the first result returns the same first occurrence
again (daily 09:00 reminder checked Monday 10:00: both calls yield tomorrow
09:00, `464400000`), not an occurrence strictly after it. -/
theorem c7_counterexample :
    getNextOccurrence fixtureReminder 381600000 = some 464400000 ∧
    getNextOccurrence { fixtureReminder with lastTriggered := some 464400000 } 381600000
      = some 464400000 := by decide

/-- C7, amended: `getNextOccurrence` never reads `lastTriggered`; replacing
that field with anything leaves the result unchanged, so feeding the first
occurrence back in cannot produce the second occurrence. -/
theorem c7_lastTriggered_ignored (r : Reminder) (lt : Option Int) (now : Int) :
    getNextOccurrence { r with lastTriggered := lt } now = getNextOccurrence r now := rfl

/-- C8: a `once` reminder with no stored date, or whose instant (stored date
at the reminder's time of day) is at or before `now`, has no next occurrence
and is never due. -/
theorem c8_once_never_refires (r : Reminder) (now : Int) (hf : r.frequency = .once)
    (h : r.date = none ∨ ∃ dt, r.date = some dt ∧
      setHours dt r.time.hour r.time.minute 0 0 ≤ now) :
    getNextOccurrence r now = none ∧ checkReminder r now = false := by
  have hn : getNextOccurrence r now = none := by
    rw [getNextOccurrence_once r now hf]
    rcases h with h | ⟨dt, hdt, hle⟩
    · rw [h]
    · simp only [hdt]
      rw [if_pos hle]
  exact ⟨hn, checkReminder_no_occurrence r now hn⟩

/-- C8, witness: the 2023-01-01 12:00 one-time reminder, checked on
2023-06-01, yields no occurrence and is not due. -/
theorem c8_witness :
    getNextOccurrence onceFixture 1685577600000 = none ∧
    checkReminder onceFixture 1685577600000 = false :=
  c8_once_never_refires onceFixture 1685577600000 rfl
    (Or.inr ⟨1672531200000, by decide, by decide⟩)

/-- C9: a daily reminder always has a next occurrence, strictly after `now`:
today at the reminder's time of day if that is still ahead, otherwise the same
instant one day later. -/
theorem c9_daily_strict_future (r : Reminder) (now : Int) (hf : r.frequency = .daily)
    (hh : 0 ≤ r.time.hour) (hm : 0 ≤ r.time.minute) :
    ∃ t, getNextOccurrence r now = some t ∧ now < t ∧
      t = (if setHours now r.time.hour r.time.minute 0 0 ≤ now
           then setHours now r.time.hour r.time.minute 0 0 + 86400000
           else setHours now r.time.hour r.time.minute 0 0) := by
  have hd := getNextOccurrence_daily r now hf
  exact ⟨_, hd, getNextOccurrence_daily_future r now hf hh hm _ hd, rfl⟩

/-- C9, witness: at Monday 09:00:05 the daily 09:00 reminder's next occurrence
is Tuesday 09:00, strictly in the future. -/
theorem c9_witness :
    getNextOccurrence fixtureReminder 378005000 = some 464400000 ∧
    (378005000 : Int) < 464400000 := by
  obtain ⟨t, h1, h2, -⟩ := c9_daily_strict_future fixtureReminder 378005000 rfl
    (by decide) (by decide)
  have hval : getNextOccurrence fixtureReminder 378005000 = some 464400000 := by decide
  rw [hval, Option.some_inj] at h1
  exact ⟨hval, by omega⟩

/-- C10: after `setReminders`, the cache is exactly the active elements of the
given list, in order; inactive reminders are never cached; `cleanup` empties
the cache.  Hence every cached reminder is active after every cache-touching
operation. -/
theorem c10_cache_active (s : SchedulerState) (rs : List Reminder) :
    (setReminders s rs).reminders = rs.filter (fun r => r.isActive) ∧
    (∀ r, r ∈ (setReminders s rs).reminders → r.isActive = true) ∧
    (cleanup s).reminders = [] := by
  refine ⟨rfl, ?_, rfl⟩
  intro r hr
  simp only [setReminders] at hr
  exact (List.mem_filter.mp hr).2

/-- C10, witness: caching an active and an inactive reminder keeps exactly the
active one, and the cached element is active. -/
theorem c10_witness :
    (setReminders { reminders := [], checkIntervalSet := false, soundPlaying := false }
      [fixtureReminder, inactiveFixture]).reminders = [fixtureReminder] ∧
    fixtureReminder.isActive = true := by
  refine ⟨by decide, ?_⟩
  exact (c10_cache_active { reminders := [], checkIntervalSet := false, soundPlaying := false }
    [fixtureReminder, inactiveFixture]).2.1 fixtureReminder (by decide)

/-- C3, counterexample: weekly `[mon, wed]` at 09:00, checked Monday 10:00
(`381600000`): the code returns next Monday 09:00 (`982800000`), although
Wednesday 09:00 (`550800000`) is a strictly earlier instant after `now`, at
the reminder's time of day, whose weekday is in the set — so the returned
occurrence is not the earliest qualifying instant. -/
theorem c3_counterexample :
    getNextOccurrence weeklyFixture 381600000 = some 982800000 ∧
    getDay 550800000 = dayMap WeekDay.wed ∧
    WeekDay.wed ∈ [WeekDay.mon, WeekDay.wed] ∧
    (381600000 : Int) < 550800000 ∧ (550800000 : Int) < 982800000 ∧
    timeOfDay 550800000 = timeOfDay (setHours 381600000 9 0 0 0) := by decide

/-- C3, amended: for a weekly reminder with a non-empty `weekDays` set, the
result is strictly after `now`, at the reminder's time of day, and its
weekday is in the set; and it is the earliest such instant unless today's
weekday is in the set and today's instant has already passed (in which case
the code jumps a full week). -/
theorem c3_weekly_next (r : Reminder) (now : Int) (ds : List WeekDay)
    (hf : r.frequency = .weekly) (hds : r.weekDays = some ds) (hne : ds ≠ [])
    (hh0 : 0 ≤ r.time.hour) (hh1 : r.time.hour ≤ 23)
    (hm0 : 0 ≤ r.time.minute) (hm1 : r.time.minute ≤ 59) :
    ∃ t, getNextOccurrence r now = some t ∧ now < t ∧
      (∃ w ∈ ds, dayMap w = getDay t) ∧
      timeOfDay t = timeOfDay (setHours now r.time.hour r.time.minute 0 0) ∧
      (¬ ((∃ w ∈ ds, dayMap w = getDay now) ∧
            setHours now r.time.hour r.time.minute 0 0 ≤ now) →
        ∀ u, now < u → timeOfDay u = timeOfDay (setHours now r.time.hour r.time.minute 0 0) →
          (∃ w ∈ ds, dayMap w = getDay u) → t ≤ u) := by
  obtain ⟨i, hscan, hval⟩ := getNextOccurrence_weekly r now ds hf hds hne
  obtain ⟨hpi, hi0, hi7, hmin⟩ := scanFirst_spec 7 0 i hscan
  have hsd := setHours_decomp now r.time.hour r.time.minute hh0 hh1 hm0 hm1
  have hnowd := dayOf_decomp now
  have hshd := dayOf_decomp (setHours now r.time.hour r.time.minute 0 0)
  have hgb := getDay_bounds now
  by_cases hdeg : i = 0 ∧ setHours now r.time.hour r.time.minute 0 0 ≤ now
  · rw [if_pos hdeg] at hval
    have hmem0 : ∃ w ∈ ds, dayMap w = getDay now := by
      have h00 : (getDay now + 0) % 7 = getDay now := by omega
      rw [hdeg.1, h00] at hpi
      exact (contains_dayMap_iff ds (getDay now)).mp hpi
    refine ⟨_, hval, by omega, ?_, timeOfDay_shift _ 7, ?_⟩
    · have h7 := getDay_shift now r.time.hour r.time.minute 7 hh0 hh1 hm0 hm1
      have h77 : (getDay now + 7) % 7 = getDay now := by omega
      rw [h7, h77]
      exact hmem0
    · intro hnd
      exact absurd ⟨hmem0, hdeg.2⟩ hnd
  · rw [if_neg hdeg] at hval
    have hfut : now < setHours now r.time.hour r.time.minute 0 0 + i * 86400000 := by
      by_cases hi : i = 0
      · have : ¬ setHours now r.time.hour r.time.minute 0 0 ≤ now := fun hc => hdeg ⟨hi, hc⟩
        omega
      · omega
    refine ⟨_, hval, hfut, ?_, timeOfDay_shift _ i, ?_⟩
    · have hg := getDay_shift now r.time.hour r.time.minute i hh0 hh1 hm0 hm1
      rw [hg]
      exact (contains_dayMap_iff ds _).mp hpi
    · intro hnd u hu htu hmemu
      have hud := dayOf_decomp u
      rcases Int.lt_or_le (dayOf u - dayOf now) i with hk | hk
      · exfalso
        have hk0 : 0 ≤ dayOf u - dayOf now := by omega
        have hfalse := hmin (dayOf u - dayOf now) hk0 hk
        have hgu : getDay u = (getDay now + (dayOf u - dayOf now)) % 7 := by
          unfold getDay
          omega
        obtain ⟨w, hw, hwx⟩ := hmemu
        have hc : ((ds.map dayMap).contains ((getDay now + (dayOf u - dayOf now)) % 7)) = true :=
          (contains_dayMap_iff ds _).mpr ⟨w, hw, by rw [hwx, hgu]⟩
        rw [hfalse] at hc
        cases hc
      · omega

/-- C3, witness: weekly `[mon, wed]` at 09:00, checked Tuesday 08:00
(`460800000`): next occurrence is Wednesday 09:00 (`550800000`), a
`wed`-weekday instant strictly after `now`. -/
theorem c3_witness :
    getNextOccurrence weeklyFixture 460800000 = some 550800000 ∧
    (∃ w ∈ [WeekDay.mon, WeekDay.wed], dayMap w = getDay 550800000) ∧
    (460800000 : Int) < 550800000 := by
  obtain ⟨t, h1, h2, h3, -, -⟩ := c3_weekly_next weeklyFixture 460800000
    [WeekDay.mon, WeekDay.wed] rfl rfl (by decide) (by decide) (by decide) (by decide) (by decide)
  have hval : getNextOccurrence weeklyFixture 460800000 = some 550800000 := by decide
  rw [hval, Option.some_inj] at h1
  subst h1
  exact ⟨hval, h3, h2⟩

/-- C5: for a monthly reminder whose `monthDay` exists in the current month
and whose instant this month has already passed, the next occurrence falls in
the next calendar month (December rolls into January of the next year), on the
same `monthDay`, at the same time of day — calendar month arithmetic, not a
fixed 30-day offset.  The hypothesis that `monthDay` also exists in the target
month reflects the claim's proviso that the overflow case follows the host
date library's native `setMonth` behaviour. -/
theorem c5_monthly_rollover (r : Reminder) (now md : Int)
    (hf : r.frequency = .monthly) (hmd : r.monthDay = some md)
    (hh0 : 0 ≤ r.time.hour) (hh1 : r.time.hour ≤ 23)
    (hm0 : 0 ≤ r.time.minute) (hm1 : r.time.minute ≤ 59)
    (hmd1 : 1 ≤ md)
    (hmdCur : md ≤ daysInMonth (getFullYear now) (getMonth now + 1))
    (hpast : setDate (setHours now r.time.hour r.time.minute 0 0) md ≤ now)
    (hmdNext : md ≤ daysInMonth
      (if getMonth now + 1 = 12 then getFullYear now + 1 else getFullYear now)
      (if getMonth now + 1 = 12 then 1 else getMonth now + 2)) :
    ∃ t, getNextOccurrence r now = some t ∧
      getFullYear t = (if getMonth now + 1 = 12 then getFullYear now + 1 else getFullYear now) ∧
      getMonth t + 1 = (if getMonth now + 1 = 12 then 1 else getMonth now + 2) ∧
      getDate t = md ∧
      timeOfDay t = (r.time.hour * 60 + r.time.minute) * 60000 := by
  have hmd0 : md ≠ 0 := by omega
  have hmo := getNextOccurrence_monthly r now md hf hmd hmd0
  rw [if_pos hpast] at hmo
  have hsd := setHours_decomp now r.time.hour r.time.minute hh0 hh1 hm0 hm1
  have hMb := getMonth_bounds now
  have hY0 : getFullYear (setHours now r.time.hour r.time.minute 0 0) = getFullYear now := by
    unfold getFullYear
    rw [hsd.1]
  have hM0 : getMonth (setHours now r.time.hour r.time.minute 0 0) = getMonth now := by
    unfold getMonth
    rw [hsd.1]
  have htod0 : 0 ≤ (r.time.hour * 60 + r.time.minute) * 60000 := by omega
  have htod1 : (r.time.hour * 60 + r.time.minute) * 60000 < 86400000 := by omega
  have hrt1 : setDate (setHours now r.time.hour r.time.minute 0 0) md
      = daysFromCivil (getFullYear now) (getMonth now + 1) md * 86400000
        + (r.time.hour * 60 + r.time.minute) * 60000 := by
    unfold setDate
    rw [hY0, hM0, hsd.2]
  obtain ⟨hgy1, hgm1, hgd1, hgt1⟩ := getters_of_daysFromCivil (getFullYear now)
    (getMonth now + 1) md hMb.1 hMb.2 hmd1 hmdCur _ htod0 htod1
  rw [hrt1] at hmo
  have hsm : setMonth (daysFromCivil (getFullYear now) (getMonth now + 1) md * 86400000
        + (r.time.hour * 60 + r.time.minute) * 60000)
      (getMonth (daysFromCivil (getFullYear now) (getMonth now + 1) md * 86400000
        + (r.time.hour * 60 + r.time.minute) * 60000) + 1)
      = daysFromCivil
          (if getMonth now + 1 = 12 then getFullYear now + 1 else getFullYear now)
          (if getMonth now + 1 = 12 then 1 else getMonth now + 2) md * 86400000
        + (r.time.hour * 60 + r.time.minute) * 60000 := by
    unfold setMonth
    rw [hgy1, hgm1, hgd1, hgt1]
    rw [(by omega : getMonth now + 1 - 1 + 1 = getMonth now + 1)]
    by_cases h12 : getMonth now + 1 = 12
    · rw [if_pos h12, if_pos h12, h12]
      norm_num
    · rw [if_neg h12, if_neg h12]
      rw [(by omega : (getMonth now + 1) / 12 = 0), (by omega : (getMonth now + 1) % 12 = getMonth now + 1)]
      rw [(by omega : getFullYear now + 0 = getFullYear now),
        (by omega : getMonth now + 1 + 1 = getMonth now + 2)]
  rw [hsm] at hmo
  have hM2a : 1 ≤ (if getMonth now + 1 = 12 then 1 else getMonth now + 2) := by
    split_ifs <;> omega
  have hM2b : (if getMonth now + 1 = 12 then 1 else getMonth now + 2) ≤ 12 := by
    split_ifs <;> omega
  obtain ⟨hgy2, hgm2, hgd2, hgt2⟩ := getters_of_daysFromCivil
    (if getMonth now + 1 = 12 then getFullYear now + 1 else getFullYear now)
    (if getMonth now + 1 = 12 then 1 else getMonth now + 2) md hM2a hM2b hmd1 hmdNext
    _ htod0 htod1
  exact ⟨_, hmo, hgy2, by omega, hgd2, hgt2⟩

/-- C5, witness: the monthly 15th-at-09:00 reminder, checked 2022-01-20 10:00
(after 2022-01-15 09:00 has passed), next occurs 2022-02-15 09:00 — the next
calendar month, same day of month, same time of day. -/
theorem c5_witness :
    getNextOccurrence monthlyFixture 1642672800000 = some 1644915600000 ∧
    getFullYear 1644915600000 = 2022 ∧ getMonth 1644915600000 + 1 = 2 ∧
    getDate 1644915600000 = 15 := by
  obtain ⟨t, h1, h2, h3, h4, -⟩ := c5_monthly_rollover monthlyFixture 1642672800000 15
    rfl rfl (by decide) (by decide) (by decide) (by decide) (by decide) (by decide)
    (by decide) (by decide)
  have hval : getNextOccurrence monthlyFixture 1642672800000 = some 1644915600000 := by decide
  rw [hval, Option.some_inj] at h1
  subst h1
  refine ⟨hval, ?_, ?_, h4⟩
  · rw [h2]
    decide
  · rw [h3]
    decide
